import Mathlib

/-
Verification of the directory and content search / media-association
subsystem of the Auzy_V2_Back repository: a shallow embedding of
business-directory/business-controller.js, common-utils/storage-utils.js
and common-utils/validation-utils.js, together with explicit models of
the semantics of the external collaborators (the Firestore document
store, the object store and the joi validation library) at the points
where the controllers rely on them.

Conventions of the embedding:
- JavaScript runtime values flowing through the validators are modelled
  by the inductive type JSValue; a JSON object is a list of
  key/value pairs with JavaScript property-lookup semantics
  (List.lookup).  Absence of a key (JavaScript undefined) is modelled
  as a failing lookup, while JavaScript null is the value JSValue.null.
- HTTP query-string parameters are either a string or absent, hence
  Option String; none models an absent (undefined) parameter.
- String.prototype.split with a one-character separator is embedded as
  a character-level split (jsSplitComma), String.prototype.includes as
  a substring test (strIncludes), String.prototype.toLowerCase as a
  character-wise lowercase map (jsToLower), and the Node path helpers
  basename / parse as character-level functions on the path text.
- The external stores are modelled where their documented behaviour is
  what the controllers rely on: the Firestore update method merges the
  supplied top-level fields into an existing document and rejects when
  the document is absent; the object-store listing with a prefix
  returns the object names starting with that prefix; URL signing is an
  abstract function passed as a parameter.
-/

set_option autoImplicit false
set_option linter.unusedVariables false

namespace AuzyBack

/-- A JavaScript / JSON runtime value, as far as the validators of the
repository inspect one.  Objects are association lists of properties;
property access is List.lookup, and an absent property models the
JavaScript undefined. -/
inductive JSValue where
  | null
  | bool (b : Bool)
  | str (s : String)
  | num (n : Int)
  | arr (xs : List JSValue)
  | obj (fields : List (String × JSValue))

/-- Character-level embedding of the JavaScript s.split with the
one-character separator used by the controllers (a comma).  Matches the
JavaScript semantics including the empty-string and trailing-separator
cases: "".split gives one empty piece, "a," gives two pieces. -/
def splitCommaChars : List Char → List (List Char)
  | [] => [[]]
  | c :: r =>
    let rest := splitCommaChars r
    if c == ',' then [] :: rest
    else
      match rest with
      | h :: t => (c :: h) :: t
      | [] => [[c]]

/-- String wrapper for splitCommaChars: the embedding of tags.split
from business-controller.js line 188 and line 216. -/
def jsSplitComma (s : String) : List String :=
  (splitCommaChars s.data).map (fun l => ⟨l⟩)

/-- Embedding of String.prototype.toLowerCase (character-wise lowering;
the inputs of this repository are ASCII). -/
def jsToLower (s : String) : String := ⟨s.data.map Char.toLower⟩

/-- Embedding of String.prototype.includes: sub occurs contiguously
inside s.  Implemented as: some tail of s has sub as a prefix. -/
def strIncludes (s sub : String) : Bool :=
  s.data.tails.any (fun t => sub.data.isPrefixOf t)

/-- validation-utils isCollectionId: joi.string alphanum length 20
required.  A Firestore collection id is exactly twenty alphanumeric
characters. -/
def isCollectionId (s : String) : Bool :=
  s.data.all Char.isAlphanum && (s.data.length == 20)

/-- Separator character class of the isFilePath regular expression
(slash or backslash). -/
def isSepChar (c : Char) : Bool := c == '/' || c == '\\'

/-- Matcher for the segment part of the isFilePath regular expression:
with the flag set, a new nonempty separator-free segment must start;
with the flag clear we are inside a segment and may either continue it,
start a new one after a separator, or end. -/
def fpSegsAux : Bool → List Char → Bool
  | true, [] => false
  | true, c :: r => !isSepChar c && fpSegsAux false r
  | false, [] => true
  | false, c :: r => if isSepChar c then fpSegsAux true r else fpSegsAux false r

/-- Matcher for the isFilePath body after the optional drive prefix: a
separator followed by separator-delimited nonempty segments, ending in
a non-separator. -/
def fpBody : List Char → Bool
  | [] => false
  | c :: r => isSepChar c && fpSegsAux true r

/-- validation-utils isFilePath: the anchored regular expression
(optional drive letter and colon, then a separator, then nonempty
segments separated by single separators, ending in a non-separator). -/
def isFilePath (s : String) : Bool :=
  match s.data with
  | a :: ':' :: r => if a.isAlpha then fpBody r else fpBody (a :: ':' :: r)
  | cs => fpBody cs

/-- Lift of a value check to a required field: a missing field (failing
lookup, i.e. JavaScript undefined) fails, mirroring joi required. -/
def fieldCheck (f : JSValue → Bool) : Option JSValue → Bool
  | some v => f v
  | none => false

/-- joi allow-null wrapper: null passes, otherwise the base check runs. -/
def nullableOf (f : JSValue → Bool) : JSValue → Bool := fun v =>
  match v with
  | .null => true
  | v => f v

/-- joi.string base check: a string value that is not empty (joi
rejects the empty string by default). -/
def strValue : JSValue → Bool
  | .str s => !(s == "")
  | _ => false

/-- joi.boolean base check. -/
def boolValue : JSValue → Bool
  | .bool _ => true
  | _ => false

/-- joi.object base check with no keys specified: any object. -/
def objValue : JSValue → Bool
  | .obj _ => true
  | _ => false

/-- One tag id inside the tags array: joi.string alphanum length 20. -/
def tagIdValue : JSValue → Bool
  | .str s => s.data.all Char.isAlphanum && (s.data.length == 20)
  | _ => false

/-- The tags field: joi.array of tag ids. -/
def tagsValue : JSValue → Bool
  | .arr xs => xs.all tagIdValue
  | _ => false

/-- Model of the email check of the external joi library (simplified:
a nonempty string containing an at sign; no claim of this development
depends on the exact email grammar, and the concrete records used in
the proofs carry null in this field). -/
def emailValue : JSValue → Bool
  | .str s => !(s == "") && s.data.contains '@'
  | _ => false

/-- Model of the uri check of the external joi library (simplified: a
nonempty string containing a colon after the scheme; no claim of this
development depends on the exact URI grammar, and the concrete records
used in the proofs carry null in this field). -/
def uriValue : JSValue → Bool
  | .str s => !(s == "") && s.data.contains ':'
  | _ => false

/-- The anchored two-digit time pattern of the daySchema regex: exactly
five characters, digit digit colon digit digit. -/
def matchHHMM (s : String) : Bool :=
  match s.data with
  | [a, b, c, d, e] => a.isDigit && b.isDigit && (c == ':') && d.isDigit && e.isDigit
  | _ => false

/-- A commence or finish value: the time pattern, with null allowed. -/
def hhmmValue : JSValue → Bool
  | .str s => matchHHMM s
  | _ => false

/-- The day-of-week enumeration of business-controller.js. -/
def daysOfWeek : List String :=
  ["Sunday", "Monday", "Tuesday", "Wednesday", "Thursday", "Friday", "Saturday"]

/-- The day field of a timetable entry: a string from the enumeration. -/
def dayNameValue : JSValue → Bool
  | .str s => daysOfWeek.contains s
  | _ => false

/-- The keys of the daySchema object. -/
def dayKeys : List String := ["day", "isOpen", "commence", "finish"]

/-- One timetable entry against the daySchema: an object with no
unknown keys whose day, isOpen, commence and finish fields satisfy
their required checks. -/
def dayEntryValue : JSValue → Bool
  | .obj efs =>
      efs.all (fun p => dayKeys.contains p.1) &&
      fieldCheck dayNameValue (List.lookup "day" efs) &&
      fieldCheck boolValue (List.lookup "isOpen" efs) &&
      fieldCheck (nullableOf hhmmValue) (List.lookup "commence" efs) &&
      fieldCheck (nullableOf hhmmValue) (List.lookup "finish" efs)
  | _ => false

/-- The day property of a timetable entry, as the unique comparator of
the timetable reads it (undefined on a non-object). -/
def dayOf : JSValue → Option JSValue
  | .obj efs => List.lookup "day" efs
  | _ => none

/-- JavaScript strict equality on the values the unique comparator can
meet (undefined, null, strings, booleans, numbers); arrays and objects
compare by reference and distinct literals are modelled as unequal. -/
def jsEqPrim : Option JSValue → Option JSValue → Bool
  | none, none => true
  | some .null, some .null => true
  | some (.str x), some (.str y) => x == y
  | some (.bool x), some (.bool y) => x == y
  | some (.num x), some (.num y) => x == y
  | _, _ => false

/-- The joi unique comparator of the timetable: some two distinct
entries have strictly equal day properties. -/
def hasDupDay : List JSValue → Bool
  | [] => false
  | e :: rest =>
      rest.any (fun e2 => jsEqPrim (dayOf e) (dayOf e2)) || hasDupDay rest

/-- The timeTable field: an array of daySchema entries with no two
entries sharing a day. -/
def timeTableValue : JSValue → Bool
  | .arr es => es.all dayEntryValue && !hasDupDay es
  | _ => false

/-- The top-level keys of the Business schema. -/
def businessKeys : List String :=
  ["name", "description", "tags", "phoneNumber", "phoneNumberSecondary",
   "email", "website", "address", "city", "isFeatured", "timeTable",
   "appointments", "featuredImageURL"]

/-- The per-field checks of the Business schema, each applied to the
lookup of its key (required: a missing key fails). -/
def businessFieldsOK (fs : List (String × JSValue)) : Bool :=
  fieldCheck strValue (List.lookup "name" fs) &&
  fieldCheck (nullableOf strValue) (List.lookup "description" fs) &&
  fieldCheck (nullableOf tagsValue) (List.lookup "tags" fs) &&
  fieldCheck (nullableOf strValue) (List.lookup "phoneNumber" fs) &&
  fieldCheck (nullableOf strValue) (List.lookup "phoneNumberSecondary" fs) &&
  fieldCheck (nullableOf emailValue) (List.lookup "email" fs) &&
  fieldCheck (nullableOf uriValue) (List.lookup "website" fs) &&
  fieldCheck (nullableOf strValue) (List.lookup "address" fs) &&
  fieldCheck (nullableOf strValue) (List.lookup "city" fs) &&
  fieldCheck boolValue (List.lookup "isFeatured" fs) &&
  fieldCheck timeTableValue (List.lookup "timeTable" fs) &&
  fieldCheck objValue (List.lookup "appointments" fs) &&
  fieldCheck (nullableOf uriValue) (List.lookup "featuredImageURL" fs)

/-- business-controller.js isBusiness: the candidate is an object, has
no key outside the schema (the joi default forbids unknown keys), and
every schema field passes its check. -/
def isBusiness : JSValue → Bool
  | .obj fs => fs.all (fun p => businessKeys.contains p.1) && businessFieldsOK fs
  | _ => false

/-- The tags property of a search-criteria candidate: an absent query
parameter (undefined), the raw comma-separated string, or the array the
validator writes back into the candidate. -/
inductive TagsVal where
  | undef
  | str (s : String)
  | arr (xs : List String)
deriving DecidableEq

/-- A search-criteria candidate as getMatchingBusinesses builds one
from the query parameters: name and city are a string or undefined,
tags starts as a string or undefined. -/
structure SearchParams where
  name : Option String
  city : Option String
  tags : TagsVal
deriving DecidableEq

/-- The in-place tags mutation at the top of isSearchParameters: a
truthy tags value (a non-empty string) is overwritten with its
comma-split array; a falsy one (undefined or the empty string) is left
alone. -/
def splitTags : TagsVal → TagsVal
  | .str s => if s == "" then .str s else .arr (jsSplitComma s)
  | t => t

/-- The joi verdict on the (possibly mutated) tags property: required,
so undefined fails; the empty string is admitted by allow; an array
passes when every item is a nonempty string. -/
def tagsSchemaOK : TagsVal → Bool
  | .undef => false
  | .str s => s == ""
  | .arr xs => xs.all (fun x => !(x == ""))

/-- business-controller.js isSearchParameters: first the tags property
of the candidate is overwritten with its comma-split array when it is a
non-empty string, then the joi schema runs: name and city are required
strings with null and the empty string allowed, tags is a required
array of strings with null and the empty string allowed.  The result is
the boolean verdict together with the candidate as the function leaves
it (the function mutates its argument). -/
def isSearchParameters (sp : SearchParams) : Bool × SearchParams :=
  let sp2 : SearchParams := { sp with tags := splitTags sp.tags }
  (sp2.name.isSome && sp2.city.isSome && tagsSchemaOK sp2.tags, sp2)

/-- A business document as the search pipeline reads one: the document
id, the required name string, the nullable city and tags fields. -/
structure BizDoc where
  docId : String
  name : String
  city : Option String
  tags : Option (List String)
deriving DecidableEq

/-- Model of the Firestore array-contains-any operator: the document
field is an array sharing at least one element with the query values; a
document whose field is null or missing never matches. -/
def arrayContainsAny (recTags : Option (List String)) (qs : List String) : Bool :=
  match recTags with
  | some ts => ts.any (fun x => qs.contains x)
  | none => false

/-- The server-side tags stage of getMatchingBusinesses: applied only
when the tags parameter is truthy (present and non-empty), with the
parameter split on commas. -/
def serverTagFilter (tags : Option String) (db : List BizDoc) : List BizDoc :=
  match tags with
  | some t => if t == "" then db else db.filter (fun d => arrayContainsAny d.tags (jsSplitComma t))
  | none => db

/-- The server-side city stage of getMatchingBusinesses: applied only
when the city parameter is truthy, as an exact equality against the
lower-cased parameter. -/
def serverCityFilter (city : Option String) (db : List BizDoc) : List BizDoc :=
  match city with
  | some c =>
      if c == "" then db
      else db.filter (fun d =>
        match d.city with
        | some c0 => c0 == jsToLower c
        | none => false)
  | none => db

/-- The client-side name stage of getMatchingBusinesses: keep the
candidates whose lower-cased name contains the lower-cased name
parameter. -/
def clientNameFilter (n : String) (db : List BizDoc) : List BizDoc :=
  db.filter (fun d => strIncludes (jsToLower d.name) (jsToLower n))

/-- Outcome of the search endpoint: the 200 response with the matched
documents, or the 400 response with an error message. -/
inductive SearchResult where
  | ok (rows : List BizDoc)
  | err (msg : String)
deriving DecidableEq

/-- The message thrown by getMatchingBusinesses on invalid query
parameters. -/
def invalidParamsMsg : String := "The query parameters provided are not valid or acceptable."

/-- The TypeError message a property access on undefined would raise;
the branch carrying it is unreachable because the validator has already
rejected a request with an absent name. -/
def undefinedNameMsg : String := "Cannot read properties of undefined"

/-- business-controller.js getMatchingBusinesses over a database of
business documents: validate the query parameters (rejecting when any
of the three is absent), then apply the server-side tags and city
stages and the client-side name stage. -/
def getMatchingBusinesses (db : List BizDoc) (name city tags : Option String) : SearchResult :=
  if !(isSearchParameters ⟨name, city, (match tags with | none => .undef | some s => .str s)⟩).1 then
    .err invalidParamsMsg
  else
    match name with
    | some n => .ok (clientNameFilter n (serverCityFilter city (serverTagFilter tags db)))
    | none => .err undefinedNameMsg

/-- Embedding of the Node path.basename on the POSIX host the server
runs on: the characters after the last slash.  The call sites apply it
to paths that have passed isFilePath and therefore end in a
non-separator, so the trailing-slash normalisation of Node never
fires and is omitted. -/
def jsBasenameChars (cs : List Char) : List Char :=
  (cs.reverse.takeWhile (fun c => !(c == '/'))).reverse

/-- String wrapper for jsBasenameChars. -/
def jsBasename (s : String) : String := ⟨jsBasenameChars s.data⟩

/-- Embedding of the extension-stripping of Node path.parse (and of
path.basename combined with path.extname, which computes the same
stem): drop from the last dot on, except that a name whose only dot is
its first character has no extension. -/
def stripExtChars (bn : List Char) : List Char :=
  if (bn.reverse.takeWhile (fun c => !(c == '.'))).length == bn.reverse.length then bn
  else if (bn.reverse.drop ((bn.reverse.takeWhile (fun c => !(c == '.'))).length + 1)).isEmpty then bn
  else (bn.reverse.drop ((bn.reverse.takeWhile (fun c => !(c == '.'))).length + 1)).reverse

/-- The stem of a stored object name as storage-utils.js computes it:
the basename of the object key, stripped of its extension. -/
def stemOfChars (objName : List Char) : List Char :=
  stripExtChars (jsBasenameChars objName)

/-- String wrapper for stemOfChars. -/
def stemOf (s : String) : String := ⟨stemOfChars s.data⟩

/-- The featured remote file name computed by uploadBusinessFeatImage:
the file name is split on dots and the first two pieces are taken as
base name and extension.  When the name has no dot the JavaScript
destructuring leaves the extension undefined and the template literal
renders the text undefined. -/
def remoteFeatNameChars (cs : List Char) : List Char :=
  if (cs.takeWhile (fun c => !(c == '.'))).length == cs.length then
    cs.takeWhile (fun c => !(c == '.')) ++ "-feat.undefined".data
  else
    cs.takeWhile (fun c => !(c == '.')) ++ "-feat.".data ++
      ((cs.drop ((cs.takeWhile (fun c => !(c == '.'))).length + 1)).takeWhile (fun c => !(c == '.')))

/-- String wrapper for remoteFeatNameChars. -/
def remoteFeatName (s : String) : String := ⟨remoteFeatNameChars s.data⟩

/-- Character-level embedding of a prefix test on strings, used for the
object-store listing with a prefix. -/
def strIsPrefixOf (p s : String) : Bool := p.data.isPrefixOf s.data

/-- The not-found message thrown by getFileURLWithSuffix and
findFeatImageFile. -/
def notFoundMsg : String := "The requested resources could not be found."

/-- storage-utils.js getFileURLWithSuffix over the listing of a folder:
find the first object whose stem ends with the suffix and return its
signed URL, or fail with the dedicated not-found error when the listing
is empty or nothing matches.  The URL signing of the external object
store is the abstract function sign. -/
def getFileURLWithSuffix (sign : String → String) (files : List String) (suffix : String) :
    Except String String :=
  match files.find? (fun f => suffix.data.isSuffixOf (stemOfChars f.data)) with
  | some f => .ok (sign f)
  | none => .error notFoundMsg

/-- storage-utils.js findFeatImageFile over the listing of a folder:
find the first object whose stem ends with the feat suffix, or fail
with the dedicated not-found error.  The returned handle is identified
by the object name. -/
def findFeatImageFile (files : List String) : Except String String :=
  match files.find? (fun f => "-feat".data.isSuffixOf (stemOfChars f.data)) with
  | some f => .ok f
  | none => .error notFoundMsg

/-- storage-utils.js deleteFilesInFolder over the stored object names:
every object whose name starts with the folder path is deleted.  On an
empty listing the parallel deletion set is empty and the call succeeds;
the function yields the remaining objects. -/
def deleteFilesInFolder (objects : List String) (folderPath : String) : List String :=
  objects.filter (fun o => !(strIsPrefixOf folderPath o))

/-- storage-utils.js uploadFileToFolder: the object is stored under the
folder path joined with the remote file name by a slash, and the signed
URL of the new object is returned.  The local file content is not part
of the model; only the object names matter to the claims. -/
def uploadFileToFolder (sign : String → String) (storage : List String)
    (folderPath localFilePath remoteFileName : String) : List String × String :=
  let remoteFilePath := folderPath ++ "/" ++ remoteFileName
  (storage ++ [remoteFilePath], sign remoteFilePath)

/-- The invalid-parameter message of the controllers. -/
def invalidParamMsg : String := "The request parameter provided is not valid or acceptable."

/-- The invalid-body message of the controllers. -/
def invalidBodyMsg : String := "The request body provided is not valid or acceptable."

/-- business-controller.js uploadBusinessFeatImage: validate the id and
the local file path, compute the featured remote name from the basename
of the local path, and store it under the business folder.  On success
the new storage listing and the signed URL are returned. -/
def uploadBusinessFeatImage (sign : String → String) (storage : List String)
    (businessId localFilePath : String) : Except String (List String × String) :=
  if !(isCollectionId businessId) then .error invalidParamMsg
  else if !(isFilePath localFilePath) then .error invalidBodyMsg
  else
    let remoteFolder := "business/" ++ businessId
    let fileName := jsBasename localFilePath
    let remoteFileName := remoteFeatName fileName
    .ok (uploadFileToFolder sign storage remoteFolder localFilePath remoteFileName)

/-- The business collection: document ids mapped to their fields. -/
def BizCol := List (String × List (String × JSValue))

/-- Model of the Firestore update write applied to the fields of an
existing document: each supplied top-level field replaces the stored
field of the same key, and stored fields without a counterpart in the
supplied record survive (the update method merges at the top level; it
is not a whole-document replace). -/
def updatedDoc (old new : List (String × JSValue)) : List (String × JSValue) :=
  new ++ old.filter (fun p => (List.lookup p.1 new).isNone)

/-- Model of the not-found rejection of the Firestore update method:
updating a document that does not exist fails and writes nothing. -/
def noDocMsg : String := "5 NOT_FOUND: no document to update"

/-- The Firestore update applied to a collection: rejected when the id
holds no document, otherwise the stored fields are merged with the
supplied ones.  Modelled from the documented Firestore behaviour the
controller relies on: update never creates a document. -/
def fsUpdateCol (col : BizCol) (id : String) (rec : List (String × JSValue)) :
    Except String BizCol :=
  match List.lookup id col with
  | none => .error noDocMsg
  | some old => .ok (col.map (fun p => if p.1 == id then (p.1, updatedDoc old rec) else p))

/-- An HTTP response of the mutation endpoints: the status code, and
the message of the JSON error body when the handler caught an error. -/
structure Resp where
  status : Nat
  errorMsg : Option String
deriving DecidableEq

/-- business-controller.js updateBusiness: validate the id format and
the record, then apply the Firestore update; any thrown error is
caught and reported as a 400 response with a JSON error body, leaving
the collection as it was. -/
def updateBusiness (col : BizCol) (businessId : String) (body : JSValue) : Resp × BizCol :=
  if !(isCollectionId businessId) then (⟨400, some invalidParamMsg⟩, col)
  else if !(isBusiness body) then (⟨400, some invalidBodyMsg⟩, col)
  else
    match body with
    | .obj rec =>
        match fsUpdateCol col businessId rec with
        | .error m => (⟨400, some m⟩, col)
        | .ok col2 => (⟨200, none⟩, col2)
    | _ => (⟨400, some invalidBodyMsg⟩, col)

/-- The state the business-deletion endpoint touches: the business
collection and the object-store listing. -/
structure DirectoryState where
  businessDocs : BizCol
  storedObjects : List String

/-- business-controller.js deleteBusinessAndFiles: validate the id,
delete the document (the Firestore delete succeeds whether or not the
document exists), then delete every stored object under the business
folder of that id. -/
def deleteBusinessAndFiles (st : DirectoryState) (businessId : String) : Nat × DirectoryState :=
  if !(isCollectionId businessId) then (400, st)
  else
    (200,
     ⟨st.businessDocs.filter (fun p => !(p.1 == businessId)),
      deleteFilesInFolder st.storedObjects ("business/" ++ businessId ++ "/")⟩)

/-- A well-formed business id used by the concrete instances. -/
def exBizId : String := "b0000000000000000001"

/-- A concrete record passing the Business validation (the nullable
fields carry null, the timetable is empty). -/
def exBizFields : List (String × JSValue) :=
  [("name", .str "Alpha Shop"),
   ("description", .null),
   ("tags", .null),
   ("phoneNumber", .null),
   ("phoneNumberSecondary", .null),
   ("email", .null),
   ("website", .null),
   ("address", .null),
   ("city", .str "tunis"),
   ("isFeatured", .bool false),
   ("timeTable", .arr []),
   ("appointments", .obj []),
   ("featuredImageURL", .null)]

/-- A second concrete record passing the Business validation, with
different values in every field that the first one fills. -/
def exBiz2Fields : List (String × JSValue) :=
  [("name", .str "Beta Shop"),
   ("description", .str "a second shop"),
   ("tags", .null),
   ("phoneNumber", .str "123"),
   ("phoneNumberSecondary", .null),
   ("email", .null),
   ("website", .null),
   ("address", .null),
   ("city", .null),
   ("isFeatured", .bool true),
   ("timeTable", .arr [.obj [("day", .str "Monday"), ("isOpen", .bool true),
                             ("commence", .str "09:00"), ("finish", .str "17:00")]]),
   ("appointments", .obj []),
   ("featuredImageURL", .null)]

/-- A stored document carrying a field outside the Business schema, as
a document written by an out-of-band tool or an earlier revision could
be. -/
def exLegacyFields : List (String × JSValue) :=
  ("legacy", .str "x") :: exBizFields

/-- A timetable entry for Monday. -/
def exMonEntry : JSValue :=
  .obj [("day", .str "Monday"), ("isOpen", .bool true), ("commence", .null), ("finish", .null)]

/-- A second, distinct timetable entry for the same Monday. -/
def exMonEntry2 : JSValue :=
  .obj [("day", .str "Monday"), ("isOpen", .bool false), ("commence", .null), ("finish", .null)]

/-- A candidate record whose timetable holds two Monday entries. -/
def exDupDayFields : List (String × JSValue) :=
  [("name", .str "Alpha Shop"),
   ("description", .null),
   ("tags", .null),
   ("phoneNumber", .null),
   ("phoneNumberSecondary", .null),
   ("email", .null),
   ("website", .null),
   ("address", .null),
   ("city", .null),
   ("isFeatured", .bool false),
   ("timeTable", .arr [exMonEntry, exMonEntry2]),
   ("appointments", .obj []),
   ("featuredImageURL", .null)]

/-- A candidate record whose timetable carries the commence value 9:00
without the zero padding. -/
def exBadTimeFields : List (String × JSValue) :=
  [("name", .str "Alpha Shop"),
   ("description", .null),
   ("tags", .null),
   ("phoneNumber", .null),
   ("phoneNumberSecondary", .null),
   ("email", .null),
   ("website", .null),
   ("address", .null),
   ("city", .null),
   ("isFeatured", .bool false),
   ("timeTable", .arr [.obj [("day", .str "Monday"), ("isOpen", .bool true),
                             ("commence", .str "9:00"), ("finish", .null)]]),
   ("appointments", .obj []),
   ("featuredImageURL", .null)]

/-- A candidate record whose timetable carries the finish value 9:00
without the zero padding. -/
def exBadFinishFields : List (String × JSValue) :=
  [("name", .str "Alpha Shop"),
   ("description", .null),
   ("tags", .null),
   ("phoneNumber", .null),
   ("phoneNumberSecondary", .null),
   ("email", .null),
   ("website", .null),
   ("address", .null),
   ("city", .null),
   ("isFeatured", .bool false),
   ("timeTable", .arr [.obj [("day", .str "Monday"), ("isOpen", .bool true),
                             ("commence", .null), ("finish", .str "9:00")]]),
   ("appointments", .obj []),
   ("featuredImageURL", .null)]

/-- A concrete directory state whose object store holds nothing under
the business folder of exBizId. -/
def exDelState : DirectoryState :=
  ⟨[(exBizId, exBizFields)], ["post/p0000000000000001/cover.png"]⟩

/-- A concrete search database with one document. -/
def exDb : List BizDoc :=
  [⟨exBizId, "Joes Cafe", some "tunis", some ["t0000000000000000001"]⟩]

/-- A true negation forces the underlying boolean to be false. -/
theorem bool_not_true {b : Bool} (h : (!b) = true) : b = false := by
  cases b
  · rfl
  · exact absurd h (by simp)

/-- Two strings with the same character data are equal. -/
theorem strData_inj {s t : String} (h : s.data = t.data) : s = t := by
  cases s; cases t; cases h; rfl

/-- The substring test agrees with the contiguous-sublist relation. -/
theorem strIncludes_iff (s sub : String) :
    strIncludes s sub = true ↔ sub.data <:+: s.data := by
  unfold strIncludes
  rw [List.any_eq_true]
  constructor
  · rintro ⟨t, ht, hp⟩
    exact List.infix_iff_prefix_suffix.mpr
      ⟨t, List.isPrefixOf_iff_prefix.mp hp, (List.mem_tails _ _).mp ht⟩
  · intro h
    rcases List.infix_iff_prefix_suffix.mp h with ⟨t, hpre, hsuf⟩
    exact ⟨t, (List.mem_tails _ _).mpr hsuf, List.isPrefixOf_iff_prefix.mpr hpre⟩

/-- Every string contains the empty string. -/
theorem strIncludes_empty (s : String) : strIncludes s "" = true := by
  unfold strIncludes
  rw [List.any_eq_true]
  exact ⟨s.data, (List.mem_tails _ _).mpr (List.suffix_refl _), by simp [List.isPrefixOf]⟩

/-- takeWhile consumes exactly an initial block of satisfying elements
up to the first failing one. -/
theorem takeWhile_append_cons {α : Type} (p : α → Bool) (l₁ : List α) (y : α) (l₂ : List α)
    (h₁ : ∀ x ∈ l₁, p x = true) (h₂ : p y = false) :
    (l₁ ++ y :: l₂).takeWhile p = l₁ := by
  induction l₁ with
  | nil => simp [List.takeWhile_cons, h₂]
  | cons a l ih =>
      have ha : p a = true := h₁ a (List.mem_cons_self a l)
      simp only [List.cons_append, List.takeWhile_cons, ha, if_true]
      exact congrArg (a :: ·) (ih (fun x hx => h₁ x (List.mem_cons_of_mem a hx)))

/-- Dropping one element beyond an initial block lands just after it. -/
theorem drop_append_cons {α : Type} (l₁ : List α) (y : α) (l₂ : List α) :
    (l₁ ++ y :: l₂).drop (l₁.length + 1) = l₂ := by
  have h : l₁ ++ y :: l₂ = (l₁ ++ [y]) ++ l₂ := by simp
  rw [h]
  have h2 : l₁.length + 1 = (l₁ ++ [y]).length := by simp
  rw [h2, List.drop_left]

/-- A required field check only succeeds on a present field. -/
theorem fieldCheck_isSome {f : JSValue → Bool} {v : Option JSValue}
    (h : fieldCheck f v = true) : v.isSome := by
  cases v with
  | none => simp [fieldCheck] at h
  | some w => rfl

/-- A valid Business object splits into its key discipline and its
field checks. -/
theorem isBusiness_obj_parts {fs : List (String × JSValue)} (h : isBusiness (.obj fs) = true) :
    fs.all (fun p => businessKeys.contains p.1) = true ∧ businessFieldsOK fs = true := by
  simpa [isBusiness, Bool.and_eq_true] using h

/-- A valid Business object carries every schema key. -/
theorem isBusiness_lookup_isSome {fs : List (String × JSValue)}
    (h : isBusiness (.obj fs) = true) :
    ∀ k ∈ businessKeys, (List.lookup k fs).isSome := by
  have h2 := (isBusiness_obj_parts h).2
  simp only [businessFieldsOK, Bool.and_eq_true, and_assoc] at h2
  obtain ⟨h1, h2', h3, h4, h5, h6, h7, h8, h9, h10, h11, h12, h13⟩ := h2
  intro k hk
  simp only [businessKeys, List.mem_cons, List.not_mem_nil, or_false] at hk
  rcases hk with rfl|rfl|rfl|rfl|rfl|rfl|rfl|rfl|rfl|rfl|rfl|rfl|rfl
  exacts [fieldCheck_isSome h1, fieldCheck_isSome h2', fieldCheck_isSome h3,
    fieldCheck_isSome h4, fieldCheck_isSome h5, fieldCheck_isSome h6,
    fieldCheck_isSome h7, fieldCheck_isSome h8, fieldCheck_isSome h9,
    fieldCheck_isSome h10, fieldCheck_isSome h11, fieldCheck_isSome h12,
    fieldCheck_isSome h13]

/-- A valid Business object has no key outside the schema. -/
theorem isBusiness_keys {fs : List (String × JSValue)} (h : isBusiness (.obj fs) = true) :
    ∀ p ∈ fs, p.1 ∈ businessKeys := by
  have h1 := (isBusiness_obj_parts h).1
  rw [List.all_eq_true] at h1
  intro p hp
  simpa using h1 p hp

/-- Removing the entries of a key removes it from lookup. -/
theorem lookup_filter_self_none {β : Type} (id : String) (l : List (String × β)) :
    List.lookup id (l.filter (fun p => !(p.1 == id))) = none := by
  induction l with
  | nil => rfl
  | cons p l ih =>
      obtain ⟨k, v⟩ := p
      by_cases hp : k = id
      · simp [List.filter_cons, hp, ih]
      · have hb : (k == id) = false := beq_eq_false_iff_ne.mpr hp
        have hb2 : (id == k) = false := beq_eq_false_iff_ne.mpr (Ne.symm hp)
        simp [List.filter_cons, hb, List.lookup, hb2, ih]

/-- The unique-day comparator fires on any two entries with strictly
equal day properties, wherever they sit in the sequence. -/
theorem hasDupDay_of_split (l₁ l₂ l₃ : List JSValue) (e1 e2 : JSValue)
    (h : jsEqPrim (dayOf e1) (dayOf e2) = true) :
    hasDupDay (l₁ ++ e1 :: l₂ ++ e2 :: l₃) = true := by
  induction l₁ with
  | nil =>
      have hmem : e2 ∈ l₂ ++ e2 :: l₃ := List.mem_append_right _ (List.mem_cons_self _ _)
      have hany : (l₂ ++ e2 :: l₃).any (fun x => jsEqPrim (dayOf e1) (dayOf x)) = true :=
        List.any_eq_true.mpr ⟨e2, hmem, h⟩
      simp [hasDupDay, hany]
  | cons a l ih =>
      have hstep : hasDupDay ((a :: l ++ e1 :: l₂) ++ e2 :: l₃) =
          ((((l ++ e1 :: l₂) ++ e2 :: l₃).any fun x => jsEqPrim (dayOf a) (dayOf x)) ||
            hasDupDay ((l ++ e1 :: l₂) ++ e2 :: l₃)) := rfl
      rw [hstep, ih, Bool.or_true]

/-- A member failing a predicate falsifies the conjunction over the
list. -/
theorem all_eq_false_of_mem {α : Type} {p : α → Bool} {l : List α} {x : α}
    (hx : x ∈ l) (hp : p x = false) : l.all p = false := by
  cases h : l.all p with
  | false => rfl
  | true => exact absurd (List.all_eq_true.mp h x hx) (by simp [hp])

/-- A failing timeTable field check falsifies the whole Business
validation. -/
theorem isBusiness_false_of_timeTable {fs : List (String × JSValue)}
    (h : fieldCheck timeTableValue (List.lookup "timeTable" fs) = false) :
    isBusiness (.obj fs) = false := by
  cases hres : isBusiness (.obj fs) with
  | false => rfl
  | true =>
      have h2 := (isBusiness_obj_parts hres).2
      simp only [businessFieldsOK, Bool.and_eq_true, and_assoc] at h2
      exact absurd h2.2.2.2.2.2.2.2.2.2.2.1 (by simp [h])

/-- The basename of a path built from a prefix, a slash and a
slash-free tail is the tail. -/
theorem jsBasenameChars_append (pre D : List Char) (hD : ∀ x ∈ D, (x == '/') = false) :
    jsBasenameChars (pre ++ '/' :: D) = D := by
  unfold jsBasenameChars
  have hrev : (pre ++ '/' :: D).reverse = D.reverse ++ '/' :: pre.reverse := by
    simp
  rw [hrev, takeWhile_append_cons _ D.reverse '/' pre.reverse
        (fun x hx => by simp [hD x (List.mem_reverse.mp hx)]) (by simp),
      List.reverse_reverse]

/-- Stripping the extension of a name of the form base-feat.ext with
dot-free base and extension leaves base-feat. -/
theorem stripExtChars_featdot (bd ed : List Char)
    (hb : ∀ x ∈ bd, (x == '.') = false) (he : ∀ x ∈ ed, (x == '.') = false) :
    stripExtChars ((bd ++ "-feat.".data) ++ ed) = bd ++ "-feat".data := by
  have hrev : ((bd ++ "-feat.".data) ++ ed).reverse =
      ed.reverse ++ '.' :: (['t', 'a', 'e', 'f', '-'] ++ bd.reverse) := by
    simp [List.reverse_append]
  have htake : (((bd ++ "-feat.".data) ++ ed).reverse).takeWhile (fun c => !(c == '.')) =
      ed.reverse := by
    rw [hrev]
    exact takeWhile_append_cons _ ed.reverse '.' _
      (fun x hx => by simp [he x (List.mem_reverse.mp hx)]) (by simp)
  have hdrop : (((bd ++ "-feat.".data) ++ ed).reverse).drop (ed.reverse.length + 1) =
      ['t', 'a', 'e', 'f', '-'] ++ bd.reverse := by
    rw [hrev]
    exact drop_append_cons ed.reverse '.' _
  have hcond : ¬ ((ed.reverse.length == ((bd ++ "-feat.".data) ++ ed).reverse.length) = true) := by
    intro hEq'
    have hEq := beq_iff_eq.mp hEq'
    rw [hrev] at hEq
    simp only [List.length_reverse, List.length_append, List.length_cons] at hEq
    omega
  have hne : ¬ (((['t', 'a', 'e', 'f', '-'] ++ bd.reverse).isEmpty) = true) := by simp
  unfold stripExtChars
  rw [htake, if_neg hcond, hdrop, if_neg hne]
  have hfin : (['t', 'a', 'e', 'f', '-'] ++ bd.reverse).reverse =
      bd ++ ['-', 'f', 'e', 'a', 't'] := by simp
  exact hfin.trans rfl

/-- The featured remote name of a file name of the form base.ext with
dot-free base and extension is base-feat.ext. -/
theorem remoteFeatNameChars_dot (bd ed : List Char)
    (hb : ∀ x ∈ bd, (x == '.') = false) (he : ∀ x ∈ ed, (x == '.') = false) :
    remoteFeatNameChars (bd ++ '.' :: ed) = (bd ++ "-feat.".data) ++ ed := by
  have htake : (bd ++ '.' :: ed).takeWhile (fun c => !(c == '.')) = bd :=
    takeWhile_append_cons _ bd '.' ed (fun x hx => by simp [hb x hx]) (by simp)
  have hcond : ¬ ((bd.length == (bd ++ '.' :: ed).length) = true) := by
    intro hEq'
    have hEq := beq_iff_eq.mp hEq'
    rw [List.length_append, List.length_cons] at hEq
    omega
  have hall : ed.takeWhile (fun c => !(c == '.')) = ed :=
    List.takeWhile_eq_self_iff.mpr (fun x hx => by simp [he x hx])
  unfold remoteFeatNameChars
  rw [htake, if_neg hcond, drop_append_cons bd '.' ed, hall, List.append_assoc]

/-- Claim C1, counterexample: a search request whose name criterion is
entirely absent (an undefined query parameter) is rejected as invalid
with the validation error, instead of succeeding without a name
constraint as the claim states. -/
theorem c1_counterexample :
    getMatchingBusinesses exDb none (some "tunis") (some "t0000000000000000001") =
      .err invalidParamsMsg := rfl

/-- Claim C1 (amended): each search criterion may be passed as the
empty string, and an empty criterion filters nothing: with empty tags
the search succeeds and reduces to the remaining stages, the empty name
drops no candidate, and the empty city and tags stages leave the
database untouched.  But the three criteria keys must all be present: a
request in which name, city or tags is absent (undefined) is rejected
as invalid by the search-parameter validator, which marks all three
fields required while allowing null and the empty string. -/
theorem c1_search_optional_criteria (db : List BizDoc) (n c : String) (x y : Option String) :
    getMatchingBusinesses db (some n) (some c) (some "") =
      .ok (clientNameFilter n (serverCityFilter (some c) db))
    ∧ clientNameFilter "" db = db
    ∧ serverCityFilter (some "") db = db
    ∧ serverTagFilter (some "") db = db
    ∧ getMatchingBusinesses db none x y = .err invalidParamsMsg
    ∧ getMatchingBusinesses db (some n) none y = .err invalidParamsMsg
    ∧ getMatchingBusinesses db (some n) (some c) none = .err invalidParamsMsg := by
  refine ⟨rfl, ?_, rfl, rfl, rfl, rfl, rfl⟩
  exact List.filter_eq_self.mpr (fun d hd => strIncludes_empty (jsToLower d.name))

/-- Claim C2: with the name criterion present, a candidate already
filtered by the server-side stages appears in the search result exactly
when its lower-cased name contains the lower-cased criterion as a
contiguous substring. -/
theorem c2_name_substring_iff (n : String) (db : List BizDoc) (d : BizDoc) :
    d ∈ clientNameFilter n db ↔
      d ∈ db ∧ (jsToLower n).data <:+: (jsToLower d.name).data := by
  simp [clientNameFilter, List.mem_filter, strIncludes_iff]

/-- Claim C3, counterexample: the update write is a top-level merge,
not a literal full replace.  Against a stored document carrying a field
outside the schema, updating with a record that passes validation
leaves that stored field alive, so the post-state differs from the
supplied record. -/
theorem c3_counterexample :
    isBusiness (.obj exBiz2Fields) = true
    ∧ List.lookup "legacy" exBiz2Fields = none
    ∧ List.lookup "legacy" (updatedDoc exLegacyFields exBiz2Fields) = some (.str "x")
    ∧ updatedDoc exLegacyFields exBiz2Fields ≠ exBiz2Fields := by
  refine ⟨rfl, rfl, rfl, ?_⟩
  intro hEq
  have h2 : (some (JSValue.str "x") : Option JSValue) = none := by
    calc (some (JSValue.str "x") : Option JSValue)
        = List.lookup "legacy" (updatedDoc exLegacyFields exBiz2Fields) := rfl
      _ = List.lookup "legacy" exBiz2Fields := by rw [hEq]
      _ = none := rfl
  exact Option.noConfusion h2

/-- Claim C3 (amended): the update is applied as a Firestore field-wise
update, merging the supplied top-level fields.  Whenever the stored
document itself passes the Business validation - as every document
written through this API does, since both creation and update validate
first - the merge coincides with a full replace: the post-update
document equals the supplied record exactly, and the update endpoint
responds 200 with the collection holding exactly the supplied record
under the id. -/
theorem c3_update_full_replace (old new : List (String × JSValue)) (id : String)
    (hid : isCollectionId id = true)
    (ho : isBusiness (.obj old) = true) (hn : isBusiness (.obj new) = true) :
    updatedDoc old new = new
    ∧ updateBusiness [(id, old)] id (.obj new) = (⟨200, none⟩, [(id, new)]) := by
  have hrep : updatedDoc old new = new := by
    have hfil : old.filter (fun p => (List.lookup p.1 new).isNone) = [] := by
      rw [List.filter_eq_nil_iff]
      intro p hp
      have hk : p.1 ∈ businessKeys := isBusiness_keys ho p hp
      have hs : (List.lookup p.1 new).isSome := isBusiness_lookup_isSome hn p.1 hk
      cases hq : List.lookup p.1 new with
      | none => rw [hq] at hs; simp at hs
      | some v => simp [hq]
    simp [updatedDoc, hfil]
  refine ⟨hrep, ?_⟩
  have hlk : List.lookup id [(id, old)] = some old := by simp [List.lookup]
  simp [updateBusiness, hid, hn, fsUpdateCol, hlk, hrep]

/-- Witness for claim C3: the amended theorem applied to two concrete
validated records. -/
theorem c3_witness :
    isCollectionId exBizId = true
    ∧ isBusiness (.obj exBizFields) = true
    ∧ isBusiness (.obj exBiz2Fields) = true
    ∧ updatedDoc exBizFields exBiz2Fields = exBiz2Fields
    ∧ updateBusiness [(exBizId, exBizFields)] exBizId (.obj exBiz2Fields) =
        (⟨200, none⟩, [(exBizId, exBiz2Fields)]) := by
  have h := c3_update_full_replace exBizFields exBiz2Fields exBizId rfl rfl rfl
  exact ⟨rfl, rfl, rfl, h.1, h.2⟩

/-- Claim C4, counterexample: the search-criteria validator does not
leave its candidate unchanged: with tags given as a non-empty string
the candidate comes back mutated. -/
theorem c4_counterexample :
    (isSearchParameters ⟨some "n", some "c", .str "a,b"⟩).2 ≠
      (⟨some "n", some "c", .str "a,b"⟩ : SearchParams) := by
  decide

/-- Claim C4 (amended): every schema validator returns a plain boolean
verdict, and the Business record validator reads its candidate without
modifying it; but the search-criteria validator mutates its candidate
before checking: a tags field holding a non-empty string is overwritten
in place with its comma-split array, while the name and city fields are
never modified and the candidate is returned unchanged when tags is
absent or the empty string. -/
theorem c4_validator_mutates_tags (sp : SearchParams) :
    (isSearchParameters sp).2.name = sp.name
    ∧ (isSearchParameters sp).2.city = sp.city
    ∧ (sp.tags = .undef → (isSearchParameters sp).2 = sp)
    ∧ (sp.tags = .str "" → (isSearchParameters sp).2 = sp)
    ∧ (∀ s, sp.tags = .str s → s ≠ "" →
        (isSearchParameters sp).2.tags = .arr (jsSplitComma s)) := by
  obtain ⟨nm, ct, tg⟩ := sp
  refine ⟨rfl, rfl, ?_, ?_, ?_⟩
  · intro h
    subst h
    rfl
  · intro h
    subst h
    rfl
  · intro s hs hne
    subst hs
    have hbeq : (s == "") = false := beq_eq_false_iff_ne.mpr hne
    simp [isSearchParameters, splitTags, hbeq]

/-- Witness for claim C4: the amended theorem applied to a concrete
candidate carrying the tag string a,b. -/
theorem c4_witness :
    (isSearchParameters ⟨some "n", some "c", .str "a,b"⟩).2.tags = .arr ["a", "b"] := by
  rw [(c4_validator_mutates_tags ⟨some "n", some "c", .str "a,b"⟩).2.2.2.2 "a,b" rfl
    (by decide)]
  decide

/-- Claim C5: with a valid id and a valid local path whose basename is
a dot-free base followed by a dot and a dot-free extension, the
featured upload stores the object base-feat.extension inside the
business folder of the id, and the suffix lookup over a listing holding
that object returns it. -/
theorem c5_featured_upload_name (sign : String → String) (storage : List String)
    (id lfp base ext : String)
    (hid : isCollectionId id = true)
    (hfp : isFilePath lfp = true)
    (hbn : jsBasename lfp = base ++ "." ++ ext)
    (hbase : base.data.all (fun c => !(c == '.') && !(isSepChar c)) = true)
    (hext : ext.data.all (fun c => !(c == '.') && !(isSepChar c)) = true) :
    uploadBusinessFeatImage sign storage id lfp =
      .ok (storage ++ ["business/" ++ id ++ "/" ++ (base ++ "-feat." ++ ext)],
           sign ("business/" ++ id ++ "/" ++ (base ++ "-feat." ++ ext)))
    ∧ getFileURLWithSuffix sign
        ["business/" ++ id ++ "/" ++ (base ++ "-feat." ++ ext)] "-feat" =
        .ok (sign ("business/" ++ id ++ "/" ++ (base ++ "-feat." ++ ext))) := by
  have hbdot : ∀ x ∈ base.data, (x == '.') = false := fun x hx => by
    have h := List.all_eq_true.mp hbase x hx
    rw [Bool.and_eq_true] at h
    exact bool_not_true h.1
  have hedot : ∀ x ∈ ext.data, (x == '.') = false := fun x hx => by
    have h := List.all_eq_true.mp hext x hx
    rw [Bool.and_eq_true] at h
    exact bool_not_true h.1
  have hbslash : ∀ x ∈ base.data, (x == '/') = false := fun x hx => by
    have h := List.all_eq_true.mp hbase x hx
    rw [Bool.and_eq_true] at h
    have h2 := bool_not_true h.2
    rw [isSepChar, Bool.or_eq_false_iff] at h2
    exact h2.1
  have heslash : ∀ x ∈ ext.data, (x == '/') = false := fun x hx => by
    have h := List.all_eq_true.mp hext x hx
    rw [Bool.and_eq_true] at h
    have h2 := bool_not_true h.2
    rw [isSepChar, Bool.or_eq_false_iff] at h2
    exact h2.1
  have hdata : (jsBasename lfp).data = base.data ++ '.' :: ext.data := by
    rw [hbn, String.data_append, String.data_append, List.append_assoc]
    rfl
  have hrn : remoteFeatName (jsBasename lfp) = (base ++ "-feat.") ++ ext := by
    apply strData_inj
    have h1 : (remoteFeatName (jsBasename lfp)).data =
        remoteFeatNameChars ((jsBasename lfp).data) := rfl
    have h2 : ((base ++ "-feat.") ++ ext).data = (base.data ++ "-feat.".data) ++ ext.data := by
      rw [String.data_append, String.data_append]
    rw [h1, hdata, remoteFeatNameChars_dot base.data ext.data hbdot hedot, h2]
  have hslash : "/".data = ['/'] := rfl
  have hd2 : ("business/" ++ id ++ "/" ++ (base ++ "-feat." ++ ext)).data =
      ("business/".data ++ id.data) ++ '/' :: ((base.data ++ "-feat.".data) ++ ext.data) := by
    simp [String.data_append, hslash]
  have hDall : ∀ x ∈ (base.data ++ "-feat.".data) ++ ext.data, (x == '/') = false := by
    intro x hx
    rcases List.mem_append.mp hx with hx1 | hx2
    · rcases List.mem_append.mp hx1 with hb | hf
      · exact hbslash x hb
      · have hfd : ∀ y ∈ "-feat.".data, (y == '/') = false := by decide
        exact hfd x hf
    · exact heslash x hx2
  have hpred : "-feat".data.isSuffixOf
      (stemOfChars ("business/" ++ id ++ "/" ++ (base ++ "-feat." ++ ext)).data) = true := by
    show "-feat".data.isSuffixOf
      (stripExtChars (jsBasenameChars
        ("business/" ++ id ++ "/" ++ (base ++ "-feat." ++ ext)).data)) = true
    rw [hd2, jsBasenameChars_append _ _ hDall,
      stripExtChars_featdot base.data ext.data hbdot hedot]
    exact List.isSuffixOf_iff_suffix.mpr (List.suffix_append _ _)
  constructor
  · simp only [uploadBusinessFeatImage, hid, hfp, Bool.not_true, Bool.false_eq_true,
      if_false, hrn, uploadFileToFolder]
  · have hfind : ["business/" ++ id ++ "/" ++ (base ++ "-feat." ++ ext)].find?
        (fun g => "-feat".data.isSuffixOf (stemOfChars g.data)) =
        some ("business/" ++ id ++ "/" ++ (base ++ "-feat." ++ ext)) :=
      List.find?_cons_of_pos _ hpred
    unfold getFileURLWithSuffix
    rw [hfind]

/-- Witness for claim C5: uploading the local file photo.png for a
concrete business id stores business/id/photo-feat.png and the feat
lookup returns it. -/
theorem c5_witness :
    isCollectionId exBizId = true
    ∧ isFilePath "/images/photo.png" = true
    ∧ uploadBusinessFeatImage (fun s => s) [] exBizId "/images/photo.png" =
        .ok (["business/" ++ exBizId ++ "/" ++ ("photo" ++ "-feat." ++ "png")],
             "business/" ++ exBizId ++ "/" ++ ("photo" ++ "-feat." ++ "png"))
    ∧ getFileURLWithSuffix (fun s => s)
        ["business/" ++ exBizId ++ "/" ++ ("photo" ++ "-feat." ++ "png")] "-feat" =
        .ok ("business/" ++ exBizId ++ "/" ++ ("photo" ++ "-feat." ++ "png")) := by
  have h := c5_featured_upload_name (fun s => s) [] exBizId "/images/photo.png" "photo" "png"
    rfl rfl rfl (by decide) (by decide)
  exact ⟨rfl, rfl, h.1, h.2⟩

/-- Claim C6: the suffix lookup and the feat lookup fail with the
dedicated not-found error on an empty listing and whenever no stem ends
with the suffix - never an empty success - and otherwise they return
the first matching object in listing order. -/
theorem c6_find_by_suffix (sign : String → String) (suffix : String)
    (files l₁ l₂ : List String) (f : String) :
    getFileURLWithSuffix sign [] suffix = .error notFoundMsg
    ∧ findFeatImageFile [] = .error notFoundMsg
    ∧ (files.all (fun g => !(suffix.data.isSuffixOf (stemOfChars g.data))) = true →
        getFileURLWithSuffix sign files suffix = .error notFoundMsg)
    ∧ (files.all (fun g => !("-feat".data.isSuffixOf (stemOfChars g.data))) = true →
        findFeatImageFile files = .error notFoundMsg)
    ∧ ((∀ g ∈ l₁, suffix.data.isSuffixOf (stemOfChars g.data) = false) →
        suffix.data.isSuffixOf (stemOfChars f.data) = true →
        getFileURLWithSuffix sign (l₁ ++ f :: l₂) suffix = .ok (sign f))
    ∧ ((∀ g ∈ l₁, "-feat".data.isSuffixOf (stemOfChars g.data) = false) →
        "-feat".data.isSuffixOf (stemOfChars f.data) = true →
        findFeatImageFile (l₁ ++ f :: l₂) = .ok f) := by
  refine ⟨rfl, rfl, ?_, ?_, ?_, ?_⟩
  · intro hall
    have hnone : files.find? (fun g => suffix.data.isSuffixOf (stemOfChars g.data)) = none :=
      List.find?_eq_none.mpr (fun x hx hcontra => by
        rw [bool_not_true (List.all_eq_true.mp hall x hx)] at hcontra
        exact Bool.noConfusion hcontra)
    unfold getFileURLWithSuffix
    rw [hnone]
  · intro hall
    have hnone : files.find? (fun g => "-feat".data.isSuffixOf (stemOfChars g.data)) = none :=
      List.find?_eq_none.mpr (fun x hx hcontra => by
        rw [bool_not_true (List.all_eq_true.mp hall x hx)] at hcontra
        exact Bool.noConfusion hcontra)
    unfold findFeatImageFile
    rw [hnone]
  · intro h1 h2
    have hn : l₁.find? (fun g => suffix.data.isSuffixOf (stemOfChars g.data)) = none :=
      List.find?_eq_none.mpr (fun x hx hcontra => by
        rw [h1 x hx] at hcontra
        exact Bool.noConfusion hcontra)
    have hfind : (l₁ ++ f :: l₂).find?
        (fun g => suffix.data.isSuffixOf (stemOfChars g.data)) = some f := by
      have hcons : (f :: l₂).find?
          (fun g => suffix.data.isSuffixOf (stemOfChars g.data)) = some f :=
        List.find?_cons_of_pos _ h2
      rw [List.find?_append, hn, hcons]
      rfl
    unfold getFileURLWithSuffix
    rw [hfind]
  · intro h1 h2
    have hn : l₁.find? (fun g => "-feat".data.isSuffixOf (stemOfChars g.data)) = none :=
      List.find?_eq_none.mpr (fun x hx hcontra => by
        rw [h1 x hx] at hcontra
        exact Bool.noConfusion hcontra)
    have hfind : (l₁ ++ f :: l₂).find?
        (fun g => "-feat".data.isSuffixOf (stemOfChars g.data)) = some f := by
      have hcons : (f :: l₂).find?
          (fun g => "-feat".data.isSuffixOf (stemOfChars g.data)) = some f :=
        List.find?_cons_of_pos _ h2
      rw [List.find?_append, hn, hcons]
      rfl
    unfold findFeatImageFile
    rw [hfind]

/-- Witness for claim C6: on a folder with no feat-suffixed stem the
lookup fails with the not-found error, and with matches present it
returns the first one. -/
theorem c6_witness :
    getFileURLWithSuffix (fun s => s) ["business/b/cover.png"] "-feat" = .error notFoundMsg
    ∧ getFileURLWithSuffix (fun s => s)
        (["business/b/cover.png"] ++ "business/b/photo-feat.png" :: ["business/b/z-feat.png"])
        "-feat" = .ok "business/b/photo-feat.png" := by
  have h := c6_find_by_suffix (fun s => s) "-feat" ["business/b/cover.png"]
    ["business/b/cover.png"] ["business/b/z-feat.png"] "business/b/photo-feat.png"
  exact ⟨h.2.2.1 (by decide), h.2.2.2.2.1 (by decide) (by decide)⟩

/-- Claim C7: the server-side tag filter is disjunctive: a record whose
tags share at least one element with the comma-split criteria passes
the array-contains-any test, and such a record is kept by the tag stage
of the search. -/
theorem c7_tags_disjunction (T1 : List String) (tg t : String)
    (db : List BizDoc) (d : BizDoc)
    (h1 : t ∈ T1) (h2 : t ∈ jsSplitComma tg) :
    arrayContainsAny (some T1) (jsSplitComma tg) = true
    ∧ (d ∈ db → d.tags = some T1 → d ∈ serverTagFilter (some tg) db) := by
  have hc : (jsSplitComma tg).contains t = true := by simpa using h2
  have hany : arrayContainsAny (some T1) (jsSplitComma tg) = true :=
    List.any_eq_true.mpr ⟨t, h1, hc⟩
  refine ⟨hany, fun hdb htags => ?_⟩
  unfold serverTagFilter
  by_cases he : tg = ""
  · subst he
    simpa using hdb
  · have hbeq : (tg == "") = false := beq_eq_false_iff_ne.mpr he
    simp only [hbeq, Bool.false_eq_true, if_false]
    exact List.mem_filter.mpr ⟨hdb, by rw [htags]; exact hany⟩

/-- Witness for claim C7: a record tagged t1 passes the tag filter of a
search asking for t1 or t2. -/
theorem c7_witness :
    arrayContainsAny (some ["t1"]) (jsSplitComma "t1,t2") = true
    ∧ (⟨"d0000000000000000001", "Any", none, some ["t1"]⟩ : BizDoc) ∈
        serverTagFilter (some "t1,t2") [⟨"d0000000000000000001", "Any", none, some ["t1"]⟩] := by
  have h := c7_tags_disjunction ["t1"] "t1,t2" "t1"
    [⟨"d0000000000000000001", "Any", none, some ["t1"]⟩]
    ⟨"d0000000000000000001", "Any", none, some ["t1"]⟩
    (by decide) (by decide)
  exact ⟨h.1, h.2 (by decide) rfl⟩

/-- Claim C8: for a valid business id the deletion endpoint reports
200, removes the business document, and deletes exactly the stored
objects under the business folder of the id; when no stored object lies
under that folder the operation still reports 200 and leaves the
object store unchanged. -/
theorem c8_delete_business (st : DirectoryState) (id : String)
    (hid : isCollectionId id = true) :
    (deleteBusinessAndFiles st id).1 = 200
    ∧ List.lookup id (deleteBusinessAndFiles st id).2.businessDocs = none
    ∧ (deleteBusinessAndFiles st id).2.storedObjects =
        st.storedObjects.filter (fun o => !(strIsPrefixOf ("business/" ++ id ++ "/") o))
    ∧ (st.storedObjects.all (fun o => !(strIsPrefixOf ("business/" ++ id ++ "/") o)) = true →
        (deleteBusinessAndFiles st id).2.storedObjects = st.storedObjects) := by
  have hred : deleteBusinessAndFiles st id =
      (200,
       ⟨st.businessDocs.filter (fun p => !(p.1 == id)),
        deleteFilesInFolder st.storedObjects ("business/" ++ id ++ "/")⟩) := by
    simp [deleteBusinessAndFiles, hid]
  refine ⟨by rw [hred], ?_, by rw [hred]; rfl, ?_⟩
  · rw [hred]
    exact lookup_filter_self_none id st.businessDocs
  · intro hall
    rw [hred]
    exact List.filter_eq_self.mpr (List.all_eq_true.mp hall)

/-- Witness for claim C8: deleting a concrete business whose folder
holds no stored object reports 200 and leaves the object store as it
was. -/
theorem c8_witness :
    isCollectionId exBizId = true
    ∧ (deleteBusinessAndFiles exDelState exBizId).1 = 200
    ∧ List.lookup exBizId (deleteBusinessAndFiles exDelState exBizId).2.businessDocs = none
    ∧ (deleteBusinessAndFiles exDelState exBizId).2.storedObjects =
        exDelState.storedObjects := by
  have h := c8_delete_business exDelState exBizId rfl
  exact ⟨rfl, h.1, h.2.1, h.2.2.2 (by decide)⟩

/-- Claim C9: the Business validator rejects every candidate whose
timetable holds two entries with the same day value, and every
candidate whose timetable holds an entry whose commence value, or
whose finish value, is a string outside the zero-padded two-digit time
pattern. -/
theorem c9_timetable_rejections :
    (∀ (fs : List (String × JSValue)) (l₁ l₂ l₃ : List JSValue) (e1 e2 : JSValue) (d : String),
      List.lookup "timeTable" fs = some (.arr ((l₁ ++ e1 :: l₂) ++ e2 :: l₃)) →
      dayOf e1 = some (.str d) → dayOf e2 = some (.str d) →
      isBusiness (.obj fs) = false)
    ∧ (∀ (fs : List (String × JSValue)) (entries : List JSValue)
        (efs : List (String × JSValue)) (s : String),
      List.lookup "timeTable" fs = some (.arr entries) →
      (JSValue.obj efs) ∈ entries →
      List.lookup "commence" efs = some (.str s) →
      matchHHMM s = false →
      isBusiness (.obj fs) = false)
    ∧ (∀ (fs : List (String × JSValue)) (entries : List JSValue)
        (efs : List (String × JSValue)) (s : String),
      List.lookup "timeTable" fs = some (.arr entries) →
      (JSValue.obj efs) ∈ entries →
      List.lookup "finish" efs = some (.str s) →
      matchHHMM s = false →
      isBusiness (.obj fs) = false) := by
  refine ⟨?_, ?_, ?_⟩
  · intro fs l₁ l₂ l₃ e1 e2 d hlook h1 h2
    have heq : jsEqPrim (dayOf e1) (dayOf e2) = true := by
      rw [h1, h2]
      simp [jsEqPrim]
    have hdup : hasDupDay ((l₁ ++ e1 :: l₂) ++ e2 :: l₃) = true :=
      hasDupDay_of_split l₁ l₂ l₃ e1 e2 heq
    have hdup2 : hasDupDay (l₁ ++ e1 :: (l₂ ++ e2 :: l₃)) = true := by
      have hl : l₁ ++ e1 :: (l₂ ++ e2 :: l₃) = (l₁ ++ e1 :: l₂) ++ e2 :: l₃ := by simp
      rw [hl]
      exact hdup
    apply isBusiness_false_of_timeTable
    rw [hlook]
    simp [fieldCheck, timeTableValue, hdup2]
  · intro fs entries efs s hlook hmem hcom hbad
    have hentry : dayEntryValue (.obj efs) = false := by
      simp [dayEntryValue, hcom, fieldCheck, nullableOf, hhmmValue, hbad]
    have hall : entries.all dayEntryValue = false := all_eq_false_of_mem hmem hentry
    apply isBusiness_false_of_timeTable
    rw [hlook]
    simp [fieldCheck, timeTableValue, hall]
  · intro fs entries efs s hlook hmem hfin hbad
    have hentry : dayEntryValue (.obj efs) = false := by
      simp [dayEntryValue, hfin, fieldCheck, nullableOf, hhmmValue, hbad]
    have hall : entries.all dayEntryValue = false := all_eq_false_of_mem hmem hentry
    apply isBusiness_false_of_timeTable
    rw [hlook]
    simp [fieldCheck, timeTableValue, hall]

/-- Witness for claim C9: a candidate with two Monday entries fails
the validator, and so do a candidate with the commence value 9:00 and
a candidate with the finish value 9:00. -/
theorem c9_witness :
    isBusiness (.obj exDupDayFields) = false
    ∧ isBusiness (.obj exBadTimeFields) = false
    ∧ isBusiness (.obj exBadFinishFields) = false := by
  have h1 := c9_timetable_rejections.1 exDupDayFields [] [] [] exMonEntry exMonEntry2
    "Monday" rfl rfl rfl
  have h2 := c9_timetable_rejections.2.1 exBadTimeFields
    [.obj [("day", .str "Monday"), ("isOpen", .bool true),
           ("commence", .str "9:00"), ("finish", .null)]]
    [("day", .str "Monday"), ("isOpen", .bool true),
     ("commence", .str "9:00"), ("finish", .null)] "9:00"
    rfl (List.mem_cons_self _ _) rfl rfl
  have h3 := c9_timetable_rejections.2.2 exBadFinishFields
    [.obj [("day", .str "Monday"), ("isOpen", .bool true),
           ("commence", .null), ("finish", .str "9:00")]]
    [("day", .str "Monday"), ("isOpen", .bool true),
     ("commence", .null), ("finish", .str "9:00")] "9:00"
    rfl (List.mem_cons_self _ _) rfl rfl
  exact ⟨h1, h2, h3⟩

/-- Claim C10: updating a well-formed id that holds no document with a
record that passes validation yields an error response with a JSON
error body, performs no upsert, and leaves the collection unchanged. -/
theorem c10_update_no_upsert (col : BizCol) (id : String) (body : JSValue)
    (hid : isCollectionId id = true) (hb : isBusiness body = true)
    (habs : List.lookup id col = none) :
    (updateBusiness col id body).1.status = 400
    ∧ (updateBusiness col id body).1.errorMsg = some noDocMsg
    ∧ (updateBusiness col id body).2 = col := by
  cases body with
  | obj rec => simp [updateBusiness, hid, hb, fsUpdateCol, habs]
  | null => exact absurd hb (by simp [isBusiness])
  | bool b => exact absurd hb (by simp [isBusiness])
  | str s => exact absurd hb (by simp [isBusiness])
  | num n => exact absurd hb (by simp [isBusiness])
  | arr xs => exact absurd hb (by simp [isBusiness])

/-- Witness for claim C10: updating an empty collection at a concrete
valid id with a concrete validated record responds 400 with an error
body and creates nothing. -/
theorem c10_witness :
    isCollectionId exBizId = true
    ∧ isBusiness (.obj exBizFields) = true
    ∧ ((updateBusiness ([] : BizCol) exBizId (.obj exBizFields)).1.status = 400
       ∧ (updateBusiness ([] : BizCol) exBizId (.obj exBizFields)).1.errorMsg = some noDocMsg
       ∧ (updateBusiness ([] : BizCol) exBizId (.obj exBizFields)).2 = ([] : BizCol)) :=
  ⟨rfl, rfl, c10_update_no_upsert ([] : BizCol) exBizId (.obj exBizFields) rfl rfl rfl⟩

end AuzyBack
